import Mathlib

/-!
# Verification of the DrawByCircles rotor-chain simulator

Shallow embedding of the kinematic core of `src/main.py`: the `Coord`,
`Radius` and `Circle` data model, the annulus rasterizer `calc_pixels`,
the per-frame center recalculation `recalc_center`, the angle update
`update_angle`, and the chain construction / per-tick pass of
`CirclesCollection`.

Python floats are modelled as rationals (ℚ).  The math library's
trigonometry is abstracted as two functions `cosD sinD : ℚ → ℚ` whose
intended meaning is `cosD a = cos (a / 180 * π)` and
`sinD a = sin (a / 180 * π)` (the source always passes
`self.angle/180*pi` to `cos`/`sin`, so the degree→radian conversion and
the trig call are embedded as one composite function).  Python's `int()`
(truncation toward zero) is `pyInt`, and Python's `%` (result has the
sign of the divisor) is `pymod`.
-/

namespace DrawByCircles

/-- Python's `int()` applied to a float: truncation toward zero
(floor for non-negative arguments, ceiling for negative ones). -/
def pyInt (q : ℚ) : ℤ :=
  if 0 ≤ q then ⌊q⌋ else ⌈q⌉

/-- Python's `%` on floats: `a % b = a - b * floor (a / b)`, so for a
positive divisor the result lies in `[0, b)`. -/
def pymod (a b : ℚ) : ℚ :=
  a - b * ⌊a / b⌋

/-- `Coord` of `src/main.py`: a 2D point with exact field equality. -/
@[ext]
structure Coord where
  x : ℚ
  y : ℚ
deriving DecidableEq, Repr

/-- `Coord.clone` returns an independent copy (value semantics in the
embedding). -/
def Coord.clone (c : Coord) : Coord :=
  Coord.mk c.x c.y

/-- `Radius` of `src/main.py`: inner radius (`value`) and ring
`thickness`, with the source's default values. -/
@[ext]
structure Radius where
  value : ℚ := 1
  thickness : ℚ := 1
deriving DecidableEq, Repr

/-- The mutable state of a `Circle` object of `src/main.py`. -/
@[ext]
structure Circle where
  is_draw_circles : Bool
  center : Coord
  angle : ℚ
  angle_velocity : ℚ
  r : Radius
  inner_pixels : List Coord
  pixels : List Coord
deriving DecidableEq, Repr

/-- `Circle.calc_pixels`: brute-force scan of the bounding square of the
outer circle.  The Python `while` loops start at `center - r_outer` and
step by `1` while `≤ center + r_outer`, so along each axis the visited
values are `center - r_outer + k` for natural `k ≤ 2 * r_outer`; a point
is kept when its squared distance from `center` is strictly greater than
`r_inner²` and at most `r_outer²`. -/
def Circle.calc_pixels (c : Circle) : List Coord :=
  let rIn : ℚ := c.r.value
  let rOut : ℚ := c.r.value + c.r.thickness
  let n : ℕ := if 0 ≤ 2 * rOut then (⌊2 * rOut⌋).toNat + 1 else 0
  (List.range n).flatMap fun (ky : ℕ) =>
    (List.range n).filterMap fun (kx : ℕ) =>
      let p : Coord := Coord.mk (c.center.x - rOut + (kx : ℚ)) (c.center.y - rOut + (ky : ℚ))
      if (p.x - c.center.x) ^ 2 + (p.y - c.center.y) ^ 2 > rIn ^ 2 ∧
         (p.x - c.center.x) ^ 2 + (p.y - c.center.y) ^ 2 ≤ rOut ^ 2 then
        some p
      else
        none

/-- `Circle.__init__`: center starts at `(0, 0)`, the local mask
`inner_pixels` is computed once when `is_draw_circles`, and `pixels` is
a copy of it. -/
def Circle.init (is_draw : Bool) (angle : ℚ) (r : Radius) (v : ℚ) : Circle :=
  let base : Circle :=
    { is_draw_circles := is_draw
      center := Coord.mk 0 0
      angle := angle
      angle_velocity := v
      r := r
      inner_pixels := []
      pixels := [] }
  let inner := if is_draw then base.calc_pixels else []
  { base with inner_pixels := inner, pixels := inner }

/-- `Circle.set_center`. -/
def Circle.set_center (c : Circle) (center : Coord) : Circle :=
  { c with center := center }

/-- `Circle.add_angle_velocity`. -/
def Circle.add_angle_velocity (c other : Circle) : Circle :=
  { c with angle_velocity := c.angle_velocity + other.angle_velocity }

/-- `Circle.recalc_center`: `avg_r = (2 * prev.r.value + prev.r.thickness) / 2`,
the new center is the parent's center displaced by `avg_r` in the
direction of this circle's own angle, each coordinate truncated by
Python's `int()`; when `is_draw_circles`, the world pixels are rewritten
in place as the local mask translated by the new center (the Python loop
overwrites `pixels[i]` for `i < len(inner_pixels)` and leaves any tail
beyond that length untouched). -/
def Circle.recalc_center (cosD sinD : ℚ → ℚ) (c prev : Circle) : Circle :=
  let avg_r : ℚ := (2 * prev.r.value + prev.r.thickness) / 2
  let cx : ℚ := (pyInt (prev.center.x + avg_r * cosD c.angle) : ℤ)
  let cy : ℚ := (pyInt (prev.center.y + avg_r * sinD c.angle) : ℤ)
  { c with
    center := Coord.mk cx cy
    pixels :=
      if c.is_draw_circles then
        (c.inner_pixels.map fun p => Coord.mk (p.x + cx) (p.y + cy)) ++
          c.pixels.drop c.inner_pixels.length
      else
        c.pixels }

/-- `Circle.update_angle`:
`angle = (1 if angle >= 0 else -1) * (angle + angle_velocity) % 360`
(Python precedence: the sign factor multiplies the sum, then `%`). -/
def Circle.update_angle (c : Circle) : Circle :=
  { c with
    angle := pymod ((if 0 ≤ c.angle then (1 : ℚ) else -1) * (c.angle + c.angle_velocity)) 360 }

/-- The center-recalculation loop of `CirclesCollection.run`:
`for i in range(1, len(circles)): circles[i].recalc_center(circles[i-1])`.
The parent passed to each step is the element already updated in this
same pass. -/
def recalcAll (cosD sinD : ℚ → ℚ) : Circle → List Circle → List Circle
  | _, [] => []
  | prev, c :: rest =>
    let c' := c.recalc_center cosD sinD prev
    c' :: recalcAll cosD sinD c' rest

/-- The state of the circle list after the center pass of one frame
(element `0` is untouched). -/
def recalcPass (cosD sinD : ℚ → ℚ) : List Circle → List Circle
  | [] => []
  | c0 :: rest => c0 :: recalcAll cosD sinD c0 rest

/-- One simulation tick of `CirclesCollection.run`: first the center
pass over indices `1..N-1` in order, then `update_angle` on every
circle. -/
def tick (cosD sinD : ℚ → ℚ) (cs : List Circle) : List Circle :=
  (recalcPass cosD sinD cs).map Circle.update_angle

/-- The velocity-wiring loop of `CirclesCollection.__init__`:
`for i in range(1, len(circles)): circles[i].add_angle_velocity(circles[i-1])`,
where `circles[i-1]` is the element already updated by the previous
iteration. -/
def wireAll : Circle → List Circle → List Circle
  | _, [] => []
  | prev, c :: rest =>
    let c' := c.add_angle_velocity prev
    c' :: wireAll c' rest

/-- The effect of `CirclesCollection.__init__` on a non-empty circle
list: a temporary circle `Circle(is_draw_circles, 0, Radius(1), 1)` is
given the anchor as center, `circles[0]` is recentered from it, and then
angular velocities are accumulated forward. -/
def buildChain (cosD sinD : ℚ → ℚ) (is_draw : Bool) (c0 : Circle) (rest : List Circle)
    (anchor : Coord) : List Circle :=
  let temp := (Circle.init is_draw 0 (Radius.mk 1 1) 1).set_center anchor
  let c0' := c0.recalc_center cosD sinD temp
  c0' :: wireAll c0' rest

/-- `CirclesCollection.__init__` as a fallible constructor: on an empty
circle list the source's `circles[0]` access raises, so no chain value
is produced; otherwise the wired chain is returned. -/
def initChain (cosD sinD : ℚ → ℚ) (is_draw : Bool) (circles : List Circle)
    (anchor : Coord) : Option (List Circle) :=
  match circles with
  | [] => none
  | c0 :: rest => some (buildChain cosD sinD is_draw c0 rest anchor)

/-- The spec's "sign-preserving modulo" of an angle: the sign factor of
the angle multiplies it before the (divisor-signed) modulo by 360.  This
is the spec's reading of "`angle mod 360` with its sign preserved". -/
def specSignMod (x : ℚ) : ℚ :=
  pymod ((if 0 ≤ x then (1 : ℚ) else -1) * x) 360

/-- A trig interpretation that is exact at angle `0`: constant `1`,
used to instantiate `cosD` in concrete scenarios (cos 0 = 1). -/
def cOne : ℚ → ℚ := fun _ => 1

/-- A trig interpretation that is exact at angle `0`: constant `0`,
used to instantiate `sinD` in concrete scenarios (sin 0 = 0). -/
def sZero : ℚ → ℚ := fun _ => 0

/-- The first rotor of the spec's end-to-end scenario:
ring `(innerRadius, thickness) = (10, 2)`, angle `0`, velocity `0`. -/
def rotorA : Circle := Circle.init false 0 (Radius.mk 10 2) 0

/-- The second rotor of the spec's end-to-end scenario:
ring `(5, 1)`, angle `0`, velocity `10`. -/
def rotorB : Circle := Circle.init false 0 (Radius.mk 5 1) 10

/-- A default circle for out-of-range `List.getD` reads in statements. -/
def dCircle : Circle := Circle.init false 0 (Radius.mk 1 1) 0

/-! ## Basic lemmas about the embedded primitives -/

theorem pymod_nonneg (a b : ℚ) (hb : 0 < b) : 0 ≤ pymod a b := by
  have h1 : ((⌊a / b⌋ : ℚ)) ≤ a / b := Int.floor_le _
  have h2 : ((⌊a / b⌋ : ℚ)) * b ≤ a := (le_div_iff₀ hb).mp h1
  unfold pymod
  linarith

theorem pymod_lt (a b : ℚ) (hb : 0 < b) : pymod a b < b := by
  have h1 : a / b < (⌊a / b⌋ : ℚ) + 1 := Int.lt_floor_add_one _
  have h2 : a < ((⌊a / b⌋ : ℚ) + 1) * b := (div_lt_iff₀ hb).mp h1
  unfold pymod
  linarith

theorem pymod_eq_self (a b : ℚ) (h0 : 0 ≤ a) (hb : a < b) : pymod a b = a := by
  have hbpos : 0 < b := lt_of_le_of_lt h0 hb
  have hfl : ⌊a / b⌋ = 0 := by
    rw [Int.floor_eq_zero_iff]
    constructor
    · exact div_nonneg h0 (le_of_lt hbpos)
    · exact (div_lt_one hbpos).mpr hb
  unfold pymod
  rw [hfl]
  ring

theorem recalc_center_is_draw (cosD sinD : ℚ → ℚ) (c prev : Circle) :
    (c.recalc_center cosD sinD prev).is_draw_circles = c.is_draw_circles := rfl

theorem recalc_center_angle (cosD sinD : ℚ → ℚ) (c prev : Circle) :
    (c.recalc_center cosD sinD prev).angle = c.angle := rfl

theorem recalc_center_velocity (cosD sinD : ℚ → ℚ) (c prev : Circle) :
    (c.recalc_center cosD sinD prev).angle_velocity = c.angle_velocity := rfl

theorem recalc_center_r (cosD sinD : ℚ → ℚ) (c prev : Circle) :
    (c.recalc_center cosD sinD prev).r = c.r := rfl

theorem recalc_center_inner (cosD sinD : ℚ → ℚ) (c prev : Circle) :
    (c.recalc_center cosD sinD prev).inner_pixels = c.inner_pixels := rfl

theorem update_angle_center (c : Circle) : c.update_angle.center = c.center := rfl

theorem update_angle_velocity (c : Circle) :
    c.update_angle.angle_velocity = c.angle_velocity := rfl

theorem update_angle_inner (c : Circle) :
    c.update_angle.inner_pixels = c.inner_pixels := rfl

theorem add_angle_velocity_inner (c o : Circle) :
    (c.add_angle_velocity o).inner_pixels = c.inner_pixels := rfl

theorem add_angle_velocity_val (c o : Circle) :
    (c.add_angle_velocity o).angle_velocity = c.angle_velocity + o.angle_velocity := rfl

theorem calc_pixels_natOut (c : Circle) (m : ℕ)
    (hm : c.r.value + c.r.thickness = (m : ℚ)) :
    c.calc_pixels =
      (List.range (2 * m + 1)).flatMap fun (ky : ℕ) =>
        (List.range (2 * m + 1)).filterMap fun (kx : ℕ) =>
          if (c.center.x - (m : ℚ) + (kx : ℚ) - c.center.x) ^ 2 +
                (c.center.y - (m : ℚ) + (ky : ℚ) - c.center.y) ^ 2 > c.r.value ^ 2 ∧
              (c.center.x - (m : ℚ) + (kx : ℚ) - c.center.x) ^ 2 +
                (c.center.y - (m : ℚ) + (ky : ℚ) - c.center.y) ^ 2 ≤ (m : ℚ) ^ 2 then
            some (Coord.mk (c.center.x - (m : ℚ) + (kx : ℚ)) (c.center.y - (m : ℚ) + (ky : ℚ)))
          else none := by
  have h2m : (0 : ℚ) ≤ 2 * (m : ℚ) := by positivity
  have hn : (if (0:ℚ) ≤ 2 * ((m:ℚ)) then (⌊2 * ((m:ℚ))⌋).toNat + 1 else 0) = 2 * m + 1 := by
    rw [if_pos h2m]
    rw [show (2 * ((m:ℚ))) = ((2 * m : ℕ) : ℚ) by push_cast; ring]
    rw [Int.floor_natCast, Int.toNat_natCast]
  simp only [Circle.calc_pixels, hm, hn]

theorem calc_pixels_scan (c : Circle) (n : ℕ)
    (hn : 2 * (c.r.value + c.r.thickness) = (n : ℚ)) :
    c.calc_pixels =
      (List.range (n + 1)).flatMap fun (ky : ℕ) =>
        (List.range (n + 1)).filterMap fun (kx : ℕ) =>
          if (c.center.x - (c.r.value + c.r.thickness) + (kx : ℚ) - c.center.x) ^ 2 +
                (c.center.y - (c.r.value + c.r.thickness) + (ky : ℚ) - c.center.y) ^ 2 >
                c.r.value ^ 2 ∧
              (c.center.x - (c.r.value + c.r.thickness) + (kx : ℚ) - c.center.x) ^ 2 +
                (c.center.y - (c.r.value + c.r.thickness) + (ky : ℚ) - c.center.y) ^ 2 ≤
                (c.r.value + c.r.thickness) ^ 2 then
            some (Coord.mk (c.center.x - (c.r.value + c.r.thickness) + (kx : ℚ))
                           (c.center.y - (c.r.value + c.r.thickness) + (ky : ℚ)))
          else none := by
  have h0 : (0 : ℚ) ≤ 2 * (c.r.value + c.r.thickness) := by rw [hn]; positivity
  have hcnt : (⌊2 * (c.r.value + c.r.thickness)⌋).toNat + 1 = n + 1 := by
    rw [hn, Int.floor_natCast, Int.toNat_natCast]
  simp only [Circle.calc_pixels]
  rw [if_pos h0, hcnt]

theorem recalc_center_center (cosD sinD : ℚ → ℚ) (c prev : Circle) :
    (c.recalc_center cosD sinD prev).center =
      Coord.mk
        ((pyInt (prev.center.x + (2 * prev.r.value + prev.r.thickness) / 2 * cosD c.angle) : ℤ))
        ((pyInt (prev.center.y + (2 * prev.r.value + prev.r.thickness) / 2 * sinD c.angle) : ℤ)) :=
  rfl

theorem update_angle_angle (c : Circle) :
    c.update_angle.angle =
      pymod ((if 0 ≤ c.angle then (1 : ℚ) else -1) * (c.angle + c.angle_velocity)) 360 :=
  rfl

/-! ## Lemmas about the chain passes -/

theorem recalcAll_length (cosD sinD : ℚ → ℚ) (prev : Circle) (l : List Circle) :
    (recalcAll cosD sinD prev l).length = l.length := by
  induction l generalizing prev with
  | nil => rfl
  | cons c rest ih => simp [recalcAll, ih]

theorem recalcAll_getD (cosD sinD : ℚ → ℚ) (l : List Circle) (prev d : Circle) (i : ℕ)
    (hi : i < l.length) :
    (recalcAll cosD sinD prev l).getD i d =
      (l.getD i d).recalc_center cosD sinD
        ((prev :: recalcAll cosD sinD prev l).getD i d) := by
  induction l generalizing prev i with
  | nil => simp at hi
  | cons c rest ih =>
    cases i with
    | zero => simp [recalcAll]
    | succ j =>
      have hj : j < rest.length := by simpa using hi
      simp only [recalcAll, List.getD_cons_succ]
      exact ih _ j hj

theorem recalcAll_getD_velocity (cosD sinD : ℚ → ℚ) (l : List Circle) (prev d : Circle)
    (i : ℕ) (hi : i < l.length) :
    ((recalcAll cosD sinD prev l).getD i d).angle_velocity =
      (l.getD i d).angle_velocity := by
  rw [recalcAll_getD cosD sinD l prev d i hi, recalc_center_velocity]

theorem recalcPass_length (cosD sinD : ℚ → ℚ) (cs : List Circle) :
    (recalcPass cosD sinD cs).length = cs.length := by
  cases cs with
  | nil => rfl
  | cons c0 rest => simp [recalcPass, recalcAll_length]

theorem tick_length (cosD sinD : ℚ → ℚ) (cs : List Circle) :
    (tick cosD sinD cs).length = cs.length := by
  simp [tick, recalcPass_length]

theorem tick_getD (cosD sinD : ℚ → ℚ) (cs : List Circle) (d : Circle) (i : ℕ)
    (hi : i < cs.length) :
    (tick cosD sinD cs).getD i d = ((recalcPass cosD sinD cs).getD i d).update_angle := by
  have hp : i < (recalcPass cosD sinD cs).length := by
    rw [recalcPass_length]; exact hi
  have ht : i < (tick cosD sinD cs).length := by
    rw [tick_length]; exact hi
  rw [List.getD_eq_getElem _ _ ht, List.getD_eq_getElem _ _ hp]
  simp [tick]

theorem recalcPass_getD_velocity (cosD sinD : ℚ → ℚ) (cs : List Circle) (d : Circle)
    (i : ℕ) (hi : i < cs.length) :
    ((recalcPass cosD sinD cs).getD i d).angle_velocity = (cs.getD i d).angle_velocity := by
  cases cs with
  | nil => simp at hi
  | cons c0 rest =>
    cases i with
    | zero => rfl
    | succ j =>
      have hj : j < rest.length := by simpa using hi
      simp only [recalcPass, List.getD_cons_succ]
      exact recalcAll_getD_velocity cosD sinD rest c0 d j hj

theorem recalc_center_pixels (cosD sinD : ℚ → ℚ) (c prev : Circle)
    (h : c.is_draw_circles = true) :
    (c.recalc_center cosD sinD prev).pixels =
      (c.inner_pixels.map fun p =>
        Coord.mk (p.x + (c.recalc_center cosD sinD prev).center.x)
                 (p.y + (c.recalc_center cosD sinD prev).center.y)) ++
        c.pixels.drop c.inner_pixels.length := by
  simp [Circle.recalc_center, h]

theorem wireAll_length (prev : Circle) (l : List Circle) :
    (wireAll prev l).length = l.length := by
  induction l generalizing prev with
  | nil => rfl
  | cons c rest ih => simp [wireAll, ih]

theorem wireAll_getD_velocity (l : List Circle) (prev d : Circle) (i : ℕ)
    (hi : i < l.length) :
    ((wireAll prev l).getD i d).angle_velocity =
      prev.angle_velocity + ((l.take (i + 1)).map Circle.angle_velocity).sum := by
  induction l generalizing prev i with
  | nil => simp at hi
  | cons c rest ih =>
    cases i with
    | zero => simp [wireAll, add_angle_velocity_val]; ring
    | succ j =>
      have hj : j < rest.length := by simpa using hi
      simp only [wireAll, List.getD_cons_succ]
      rw [ih _ j hj]
      simp [add_angle_velocity_val, List.take_succ_cons]
      ring

/-! ## Claim theorems -/

/-- C1: `recalc_center(parent)` sets the rotor's center to
`(truncate(parent.center.x + r * cosD(angle)), truncate(parent.center.y + r * sinD(angle)))`
with `r = parent.ring.innerRadius + parent.ring.thickness / 2` (the
parent's midline radius) and the rotor's own current angle as the trig
argument; the truncation `pyInt` is toward zero (magnitude never grows,
never shrinks by one or more, sign agrees), not rounding. -/
theorem recalc_center_matches_spec (cosD sinD : ℚ → ℚ) (c prev : Circle) :
    (c.recalc_center cosD sinD prev).center =
      Coord.mk
        ((pyInt (prev.center.x + (prev.r.value + prev.r.thickness / 2) * cosD c.angle) : ℤ))
        ((pyInt (prev.center.y + (prev.r.value + prev.r.thickness / 2) * sinD c.angle) : ℤ))
  ∧ ∀ q : ℚ, |(pyInt q : ℚ)| ≤ |q| ∧ |q| < |(pyInt q : ℚ)| + 1 ∧ 0 ≤ q * (pyInt q : ℚ) := by
  constructor
  · have hx : (2 * prev.r.value + prev.r.thickness) / 2 =
        prev.r.value + prev.r.thickness / 2 := by ring
    simp only [Circle.recalc_center, hx]
  · intro q
    rcases le_or_lt 0 q with hq | hq
    · have hfl : pyInt q = ⌊q⌋ := by simp [pyInt, hq]
      have h1 : ((⌊q⌋ : ℚ)) ≤ q := Int.floor_le q
      have h2 : q < (⌊q⌋ : ℚ) + 1 := Int.lt_floor_add_one q
      have h3 : (0 : ℚ) ≤ (⌊q⌋ : ℚ) := by
        have := Int.floor_nonneg.mpr hq
        exact_mod_cast this
      rw [hfl]
      rw [abs_of_nonneg hq, abs_of_nonneg h3]
      refine ⟨h1, h2, ?_⟩
      exact mul_nonneg hq h3
    · have hfl : pyInt q = ⌈q⌉ := by simp [pyInt, not_le.mpr hq]
      have h1 : q ≤ (⌈q⌉ : ℚ) := Int.le_ceil q
      have h2 : ((⌈q⌉ : ℚ)) < q + 1 := Int.ceil_lt_add_one q
      have h3 : ((⌈q⌉ : ℚ)) ≤ 0 := by
        have : ⌈q⌉ ≤ (0 : ℤ) := Int.ceil_le.mpr (le_of_lt hq)
        exact_mod_cast this
      rw [hfl]
      rw [abs_of_neg hq, abs_of_nonpos h3]
      refine ⟨by linarith, by linarith, ?_⟩
      nlinarith [mul_nonneg (neg_nonneg.mpr (le_of_lt hq)) (neg_nonneg.mpr h3)]

/-- C10: after every `update_angle` the angle lies in `[0, 360)` (in
particular it is non-negative even when the pre-update angle was
negative), so on the next `update_angle` the sign factor is `+1` and the
negative branch is never taken again. -/
theorem update_angle_range (c : Circle) :
    0 ≤ c.update_angle.angle
  ∧ c.update_angle.angle < 360
  ∧ c.update_angle.update_angle =
      { c.update_angle with
        angle := pymod (c.update_angle.angle + c.angle_velocity) 360 } := by
  have h360 : (0 : ℚ) < 360 := by norm_num
  have h0 : 0 ≤ c.update_angle.angle := pymod_nonneg _ _ h360
  refine ⟨h0, pymod_lt _ _ h360, ?_⟩
  ext1
  · rfl
  · rfl
  · show pymod ((if 0 ≤ c.update_angle.angle then (1:ℚ) else -1) *
        (c.update_angle.angle + c.update_angle.angle_velocity)) 360 =
      pymod (c.update_angle.angle + c.angle_velocity) 360
    rw [if_pos h0, one_mul, update_angle_velocity]
  · rfl
  · rfl
  · rfl
  · rfl

/-- C6: with zero angular velocity, one `update_angle` leaves the angle
equal to the spec's sign-preserving modulo of the original angle
(`sign * angle mod 360`), and the circle is then a fixed point of every
further `update_angle`. -/
theorem update_angle_zero_velocity (c : Circle) (h : c.angle_velocity = 0) :
    c.update_angle.angle = specSignMod c.angle
  ∧ ∀ n : ℕ, Circle.update_angle^[n] c.update_angle = c.update_angle := by
  constructor
  · simp [Circle.update_angle, specSignMod, h]
  · have hfix : c.update_angle.update_angle = c.update_angle := by
      have h360 : (0 : ℚ) < 360 := by norm_num
      have h0 : 0 ≤ c.update_angle.angle := pymod_nonneg _ _ h360
      have hlt : c.update_angle.angle < 360 := pymod_lt _ _ h360
      have hv : c.update_angle.angle_velocity = 0 := by
        rw [update_angle_velocity, h]
      ext1
      · rfl
      · rfl
      · show (pymod ((if 0 ≤ c.update_angle.angle then (1:ℚ) else -1) *
            (c.update_angle.angle + c.update_angle.angle_velocity)) 360) =
            c.update_angle.angle
        rw [if_pos h0, hv, one_mul, add_zero]
        exact pymod_eq_self _ _ h0 hlt
      · rfl
      · rfl
      · rfl
      · rfl
    intro n
    induction n with
    | zero => rfl
    | succ k ih => rw [Function.iterate_succ_apply, hfix, ih]

/-- C8: constructing a chain from an empty rotor sequence produces no
chain value (the source's `circles[0]` access fails during
construction), while every non-empty sequence does produce one. -/
theorem initChain_requires_nonempty (cosD sinD : ℚ → ℚ) (draw : Bool) (anchor : Coord) :
    initChain cosD sinD draw [] anchor = none
  ∧ ∀ c0 rest, (initChain cosD sinD draw (c0 :: rest) anchor).isSome = true := by
  exact ⟨rfl, fun c0 rest => rfl⟩

/-- C9 counterexample: a rotor with negative inner radius and negative
thickness is accepted by construction — the result is an ordinary
`Circle` whose ring fields hold the negative values unchanged (and whose
mask is empty), rather than any failure. -/
theorem negative_radius_accepted :
    (Circle.init true 0 (Radius.mk (-1) (-1)) 5).r = Radius.mk (-1) (-1)
  ∧ (Circle.init true 0 (Radius.mk (-1) (-1)) 5).angle_velocity = 5
  ∧ (Circle.init true 0 (Radius.mk (-1) (-1)) 5).inner_pixels = [] := by
  refine ⟨rfl, rfl, ?_⟩
  simp [Circle.init, Circle.calc_pixels]
  norm_num

/-- C9 (amended): constructing a rotor with a negative inner radius or a
negative thickness does not fail and does not clamp: the rotor is built
with exactly the supplied field values. -/
theorem circle_init_unclamped (draw : Bool) (a : ℚ) (r : Radius) (v : ℚ)
    (h : r.value < 0 ∨ r.thickness < 0) :
    (Circle.init draw a r v).r = r
  ∧ (Circle.init draw a r v).angle = a
  ∧ (Circle.init draw a r v).angle_velocity = v
  ∧ (Circle.init draw a r v).is_draw_circles = draw := by
  exact ⟨rfl, rfl, rfl, rfl⟩

/-- C9 witness: the amended statement at the concrete ring `(-1, -1)`. -/
theorem circle_init_unclamped_witness :
    (Circle.init true 0 (Radius.mk (-1) (-1)) 5).r = Radius.mk (-1) (-1)
  ∧ (Circle.init true 0 (Radius.mk (-1) (-1)) 5).angle = 0
  ∧ (Circle.init true 0 (Radius.mk (-1) (-1)) 5).angle_velocity = 5
  ∧ (Circle.init true 0 (Radius.mk (-1) (-1)) 5).is_draw_circles = true :=
  circle_init_unclamped true 0 (Radius.mk (-1) (-1)) 5 (Or.inl (by norm_num))

/-- C2: one tick of a non-empty chain first runs the center pass — the
pass leaves element `0` untouched and satisfies, for every `i`, the
root-to-tip recurrence "new element `i+1` is the pre-tick rotor `i+1`
(so its pre-update angle) recentered on the already-recomputed element
`i`" — and only then maps `update_angle` over the whole list; the center
of rotor `0` is never modified by a tick. -/
theorem tick_two_phase (cosD sinD : ℚ → ℚ) (c0 d : Circle) (rest : List Circle) (i : ℕ)
    (hi : i < rest.length) :
    (recalcPass cosD sinD (c0 :: rest)).length = (c0 :: rest).length
  ∧ tick cosD sinD (c0 :: rest) = (recalcPass cosD sinD (c0 :: rest)).map Circle.update_angle
  ∧ (recalcPass cosD sinD (c0 :: rest)).getD 0 d = c0
  ∧ (recalcPass cosD sinD (c0 :: rest)).getD (i + 1) d =
      ((c0 :: rest).getD (i + 1) d).recalc_center cosD sinD
        ((recalcPass cosD sinD (c0 :: rest)).getD i d)
  ∧ ((tick cosD sinD (c0 :: rest)).getD 0 d).center = c0.center := by
  refine ⟨recalcPass_length cosD sinD _, rfl, rfl, ?_, ?_⟩
  · simp only [recalcPass, List.getD_cons_succ]
    exact recalcAll_getD cosD sinD rest c0 d i hi
  · have h0 : 0 < (c0 :: rest).length := by simp
    rw [tick_getD cosD sinD _ d 0 h0]
    rw [update_angle_center]
    rfl

/-- C2 witness: the tick decomposition at the concrete two-rotor chain
of the end-to-end scenario. -/
theorem tick_two_phase_witness :
    (recalcPass cOne sZero (rotorA :: [rotorB])).length = (rotorA :: [rotorB]).length
  ∧ tick cOne sZero (rotorA :: [rotorB]) =
      (recalcPass cOne sZero (rotorA :: [rotorB])).map Circle.update_angle
  ∧ (recalcPass cOne sZero (rotorA :: [rotorB])).getD 0 dCircle = rotorA
  ∧ (recalcPass cOne sZero (rotorA :: [rotorB])).getD (0 + 1) dCircle =
      ((rotorA :: [rotorB]).getD (0 + 1) dCircle).recalc_center cOne sZero
        ((recalcPass cOne sZero (rotorA :: [rotorB])).getD 0 dCircle)
  ∧ ((tick cOne sZero (rotorA :: [rotorB])).getD 0 dCircle).center = rotorA.center :=
  tick_two_phase cOne sZero rotorA dCircle [rotorB] 0 (by norm_num)

/-- C3: after chain construction the angular velocity of rotor `i` is
the sum of the original velocities of rotors `0..i` (the accumulation is
applied once, inside `buildChain`, before any tick), and a tick never
changes any rotor's angular velocity. -/
theorem velocity_accumulation (cosD sinD : ℚ → ℚ) (draw : Bool) (anchor : Coord)
    (c0 d : Circle) (rest : List Circle) (i : ℕ) (hi : i < rest.length + 1) :
    initChain cosD sinD draw (c0 :: rest) anchor =
      some (buildChain cosD sinD draw c0 rest anchor)
  ∧ (buildChain cosD sinD draw c0 rest anchor).length = rest.length + 1
  ∧ ((buildChain cosD sinD draw c0 rest anchor).getD i d).angle_velocity =
      (((c0 :: rest).take (i + 1)).map Circle.angle_velocity).sum
  ∧ ((tick cosD sinD (buildChain cosD sinD draw c0 rest anchor)).getD i d).angle_velocity =
      ((buildChain cosD sinD draw c0 rest anchor).getD i d).angle_velocity := by
  have hlen : (buildChain cosD sinD draw c0 rest anchor).length = rest.length + 1 := by
    simp [buildChain, wireAll_length]
  have hvel : ((buildChain cosD sinD draw c0 rest anchor).getD i d).angle_velocity =
      (((c0 :: rest).take (i + 1)).map Circle.angle_velocity).sum := by
    cases i with
    | zero =>
      show ((buildChain cosD sinD draw c0 rest anchor).getD 0 d).angle_velocity = _
      simp [buildChain, recalc_center_velocity]
    | succ j =>
      have hj : j < rest.length := by omega
      show ((buildChain cosD sinD draw c0 rest anchor).getD (j + 1) d).angle_velocity = _
      simp only [buildChain, List.getD_cons_succ]
      rw [wireAll_getD_velocity rest _ d j hj, recalc_center_velocity]
      simp [List.take_succ_cons]
  refine ⟨rfl, hlen, hvel, ?_⟩
  have hib : i < (buildChain cosD sinD draw c0 rest anchor).length := by omega
  rw [tick_getD cosD sinD _ d i hib, update_angle_velocity]
  exact recalcPass_getD_velocity cosD sinD _ d i hib

/-- C3 witness: the velocity accumulation at the concrete two-rotor
chain (velocities `0` and `10`). -/
theorem velocity_accumulation_witness :
    initChain cOne sZero false (rotorA :: [rotorB]) (Coord.mk 100 100) =
      some (buildChain cOne sZero false rotorA [rotorB] (Coord.mk 100 100))
  ∧ (buildChain cOne sZero false rotorA [rotorB] (Coord.mk 100 100)).length = 1 + 1
  ∧ ((buildChain cOne sZero false rotorA [rotorB] (Coord.mk 100 100)).getD 1 dCircle).angle_velocity =
      (((rotorA :: [rotorB]).take (1 + 1)).map Circle.angle_velocity).sum
  ∧ ((tick cOne sZero (buildChain cOne sZero false rotorA [rotorB] (Coord.mk 100 100))).getD 1
        dCircle).angle_velocity =
      ((buildChain cOne sZero false rotorA [rotorB] (Coord.mk 100 100)).getD 1 dCircle).angle_velocity :=
  velocity_accumulation cOne sZero false (Coord.mk 100 100) rotorA dCircle [rotorB] 1
    (by norm_num)

/-- C5: the local mask `inner_pixels` is unchanged by `recalc_center`,
`update_angle` and `add_angle_velocity`, and immediately after any
`recalc_center` of a drawing rotor, world pixel `i` equals local mask
entry `i` translated by the new center. -/
theorem world_pixels_invariant (cosD sinD : ℚ → ℚ) (c prev o : Circle) (dp : Coord)
    (i : ℕ) (h : c.is_draw_circles = true) (hi : i < c.inner_pixels.length) :
    (c.recalc_center cosD sinD prev).inner_pixels = c.inner_pixels
  ∧ c.update_angle.inner_pixels = c.inner_pixels
  ∧ (c.add_angle_velocity o).inner_pixels = c.inner_pixels
  ∧ (c.recalc_center cosD sinD prev).pixels.getD i dp =
      Coord.mk ((c.inner_pixels.getD i dp).x + (c.recalc_center cosD sinD prev).center.x)
               ((c.inner_pixels.getD i dp).y + (c.recalc_center cosD sinD prev).center.y) := by
  refine ⟨rfl, rfl, rfl, ?_⟩
  rw [recalc_center_pixels cosD sinD c prev h]
  have hlen : i < (c.inner_pixels.map fun p =>
      Coord.mk (p.x + (c.recalc_center cosD sinD prev).center.x)
               (p.y + (c.recalc_center cosD sinD prev).center.y)).length := by
    simpa using hi
  rw [List.getD_append _ _ _ _ hlen, List.getD_eq_getElem _ _ hlen, List.getElem_map,
    List.getD_eq_getElem _ _ hi]

/-- The annulus mask of a drawing rotor with ring `(0, 1)`, computed
explicitly: the four integer points at distance exactly 1. -/
theorem mask01_eq :
    (Circle.init true 0 (Radius.mk 0 1) 0).inner_pixels =
      [Coord.mk 0 (-1), Coord.mk (-1) 0, Coord.mk 1 0, Coord.mk 0 1] := by
  rw [show (Circle.init true 0 (Radius.mk 0 1) 0).inner_pixels =
      (Circle.init true 0 (Radius.mk 0 1) 0).calc_pixels from rfl]
  rw [calc_pixels_natOut _ 1 (by norm_num [Circle.init])]
  norm_num [Circle.init, List.range_succ, List.filterMap_cons]

/-- C5 witness: the world-pixel relation at index `0` of a concrete
drawing rotor with ring `(0, 1)` recentered on a concrete parent. -/
theorem world_pixels_invariant_witness :
    ((Circle.init true 0 (Radius.mk 0 1) 0).recalc_center cOne sZero rotorA).inner_pixels =
      (Circle.init true 0 (Radius.mk 0 1) 0).inner_pixels
  ∧ (Circle.init true 0 (Radius.mk 0 1) 0).update_angle.inner_pixels =
      (Circle.init true 0 (Radius.mk 0 1) 0).inner_pixels
  ∧ ((Circle.init true 0 (Radius.mk 0 1) 0).add_angle_velocity rotorB).inner_pixels =
      (Circle.init true 0 (Radius.mk 0 1) 0).inner_pixels
  ∧ ((Circle.init true 0 (Radius.mk 0 1) 0).recalc_center cOne sZero rotorA).pixels.getD 0
        (Coord.mk 0 0) =
      Coord.mk (((Circle.init true 0 (Radius.mk 0 1) 0).inner_pixels.getD 0 (Coord.mk 0 0)).x +
          ((Circle.init true 0 (Radius.mk 0 1) 0).recalc_center cOne sZero rotorA).center.x)
        (((Circle.init true 0 (Radius.mk 0 1) 0).inner_pixels.getD 0 (Coord.mk 0 0)).y +
          ((Circle.init true 0 (Radius.mk 0 1) 0).recalc_center cOne sZero rotorA).center.y) :=
  world_pixels_invariant cOne sZero (Circle.init true 0 (Radius.mk 0 1) 0) rotorA rotorB
    (Coord.mk 0 0) 0 rfl (by rw [mask01_eq]; norm_num)

/-- C6 witness: the zero-velocity angle update at the concrete circle
with angle `-30`. -/
theorem update_angle_zero_velocity_witness :
    (Circle.init false (-30) (Radius.mk 1 1) 0).update_angle.angle =
      specSignMod (Circle.init false (-30) (Radius.mk 1 1) 0).angle
  ∧ ∀ n : ℕ,
      Circle.update_angle^[n] (Circle.init false (-30) (Radius.mk 1 1) 0).update_angle =
        (Circle.init false (-30) (Radius.mk 1 1) 0).update_angle :=
  update_angle_zero_velocity (Circle.init false (-30) (Radius.mk 1 1) 0) rfl

/-- The annulus mask of a drawing rotor with ring `(1/2, 1)` (outer
radius `3/2`), computed explicitly: four points on the half-integer
grid. -/
theorem mask_half_eq :
    (Circle.init true 0 (Radius.mk (1/2) 1) 0).inner_pixels =
      [Coord.mk (-1/2) (-1/2), Coord.mk (1/2) (-1/2),
       Coord.mk (-1/2) (1/2), Coord.mk (1/2) (1/2)] := by
  rw [show (Circle.init true 0 (Radius.mk (1/2) 1) 0).inner_pixels =
      (Circle.init true 0 (Radius.mk (1/2) 1) 0).calc_pixels from rfl]
  rw [calc_pixels_scan _ 3 (by norm_num [Circle.init])]
  norm_num [Circle.init, List.range_succ, List.filterMap_cons]

/-- C4 counterexample: the rotor with ring `(1/2, 1)` draws, yet its
local mask contains the point `(1/2, -1/2)`, whose x-coordinate is not
an integer — so the mask is not the claimed set of integer-offset
points. -/
theorem mask_contains_noninteger_point :
    Coord.mk (1/2) (-1/2) ∈ (Circle.init true 0 (Radius.mk (1/2) 1) 0).inner_pixels
  ∧ ∀ a : ℤ, ((1 : ℚ)/2) ≠ (a : ℚ) := by
  constructor
  · rw [mask_half_eq]
    norm_num
  · intro a ha
    have h2 : (1 : ℚ) = 2 * (a : ℚ) := by linarith
    have h3 : (1 : ℤ) = 2 * a := by exact_mod_cast h2
    omega

/-- C4 (amended): for a drawing rotor whose *outer* radius
`innerRadius + thickness` is a non-negative integer `m`, the local mask
is exactly the set of integer-offset points in the band
`innerRadius² < dx² + dy² ≤ outerRadius²`; for non-integer outer radius
the scan produces offsets on a shifted grid instead (see the
counterexample). -/
theorem mask_band_integer_outer (angle v rv rt : ℚ) (m : ℕ)
    (hm : rv + rt = (m : ℚ)) (p : Coord) :
    p ∈ (Circle.init true angle (Radius.mk rv rt) v).inner_pixels ↔
      ∃ a b : ℤ, p = Coord.mk ((a : ℚ)) ((b : ℚ)) ∧
        rv ^ 2 < (a : ℚ) ^ 2 + (b : ℚ) ^ 2 ∧
        (a : ℚ) ^ 2 + (b : ℚ) ^ 2 ≤ (rv + rt) ^ 2 := by
  have hre : (Circle.init true angle (Radius.mk rv rt) v).inner_pixels =
      (Circle.init true angle (Radius.mk rv rt) v).calc_pixels := rfl
  have hrv : (Circle.init true angle (Radius.mk rv rt) v).r.value = rv := rfl
  have hrt : (Circle.init true angle (Radius.mk rv rt) v).r.thickness = rt := rfl
  have hcx : (Circle.init true angle (Radius.mk rv rt) v).center.x = 0 := rfl
  have hcy : (Circle.init true angle (Radius.mk rv rt) v).center.y = 0 := rfl
  rw [hre, calc_pixels_natOut _ m (by rw [hrv, hrt]; exact hm)]
  rw [hrv, hcx, hcy]
  simp only [List.mem_flatMap, List.mem_filterMap, List.mem_range,
    Option.ite_none_right_eq_some, Option.some.injEq]
  constructor
  · rintro ⟨ky, hky, kx, hkx, ⟨h1, h2⟩, hp⟩
    refine ⟨(kx : ℤ) - m, (ky : ℤ) - m, ?_, ?_, ?_⟩
    · rw [← hp, Coord.mk.injEq]
      constructor <;> push_cast <;> ring
    · push_cast
      nlinarith [h1]
    · rw [hm]
      push_cast
      nlinarith [h2]
  · rintro ⟨a, b, hp, h1, h2⟩
    have hm2 : (rv + rt) ^ 2 = ((m : ℚ)) ^ 2 := by rw [hm]
    have ha2 : (a : ℚ) ^ 2 ≤ ((m : ℚ)) ^ 2 := by nlinarith [sq_nonneg ((b : ℚ))]
    have hb2 : (b : ℚ) ^ 2 ≤ ((m : ℚ)) ^ 2 := by nlinarith [sq_nonneg ((a : ℚ))]
    have ha2' : a ^ 2 ≤ ((m : ℤ)) ^ 2 := by exact_mod_cast ha2
    have hb2' : b ^ 2 ≤ ((m : ℤ)) ^ 2 := by exact_mod_cast hb2
    have ham : -(m : ℤ) ≤ a ∧ a ≤ (m : ℤ) := by constructor <;> nlinarith [ha2']
    have hbm : -(m : ℤ) ≤ b ∧ b ≤ (m : ℤ) := by constructor <;> nlinarith [hb2']
    have ha0 : (0 : ℤ) ≤ a + m := by omega
    have hb0 : (0 : ℤ) ≤ b + m := by omega
    have hka : (((a + (m : ℤ)).toNat : ℕ) : ℚ) = (a : ℚ) + (m : ℚ) := by
      have h' : (((a + (m : ℤ)).toNat : ℤ) : ℚ) = ((a + (m : ℤ) : ℤ) : ℚ) := by
        rw [Int.toNat_of_nonneg ha0]
      push_cast at h'
      linarith
    have hkb : (((b + (m : ℤ)).toNat : ℕ) : ℚ) = (b : ℚ) + (m : ℚ) := by
      have h' : (((b + (m : ℤ)).toNat : ℤ) : ℚ) = ((b + (m : ℤ) : ℤ) : ℚ) := by
        rw [Int.toNat_of_nonneg hb0]
      push_cast at h'
      linarith
    refine ⟨(b + (m : ℤ)).toNat, by omega, (a + (m : ℤ)).toNat, by omega, ⟨?_, ?_⟩, ?_⟩
    · rw [hka, hkb]
      nlinarith [h1]
    · rw [hka, hkb]
      nlinarith [h2, hm2]
    · rw [hka, hkb, hp, Coord.mk.injEq]
      constructor <;> ring
/-- C4 witness: the amended band characterization applied with outer
radius `2` produces the concrete mask point `(2, 0)`. -/
theorem mask_band_integer_outer_witness :
    Coord.mk 2 0 ∈ (Circle.init true 0 (Radius.mk 1 1) 0).inner_pixels :=
  (mask_band_integer_outer 0 0 1 1 2 (by norm_num) (Coord.mk 2 0)).mpr
    ⟨2, 0, by norm_num [Coord.mk.injEq], by norm_num, by norm_num⟩

/-- C7: for the two-rotor chain with anchor `(100, 100)`, rotor 0 with
ring `(10, 2)`, angle 0, velocity 0 and rotor 1 with ring `(5, 1)`,
angle 0, velocity 10, under any trig interpretation exact at angle 0:
after construction rotor 0's center is `(101, 100)` (seeded through the
synthetic reference rotor of midline radius `3/2`, then truncated), and
after one tick rotor 1 has angle `10` and center `(112, 100)` (computed
from rotor 0's center at midline radius 11 and rotor 1's pre-update
angle 0). -/
theorem two_rotor_scenario (cosD sinD : ℚ → ℚ) (d : Circle)
    (hc : cosD 0 = 1) (hs : sinD 0 = 0) :
    initChain cosD sinD false [rotorA, rotorB] (Coord.mk 100 100) =
      some (buildChain cosD sinD false rotorA [rotorB] (Coord.mk 100 100))
  ∧ ((buildChain cosD sinD false rotorA [rotorB] (Coord.mk 100 100)).getD 0 d).center =
      Coord.mk 101 100
  ∧ ((tick cosD sinD (buildChain cosD sinD false rotorA [rotorB] (Coord.mk 100 100))).getD 1
        d).angle = 10
  ∧ ((tick cosD sinD (buildChain cosD sinD false rotorA [rotorB] (Coord.mk 100 100))).getD 1
        d).center = Coord.mk 112 100 := by
  have hf1 : (⌊(203 : ℚ) / 2⌋) = 101 := by
    rw [Int.floor_eq_iff]
    constructor <;> norm_num
  have hA : rotorA.recalc_center cosD sinD
      ((Circle.init false 0 (Radius.mk 1 1) 1).set_center (Coord.mk 100 100)) =
      { rotorA with center := Coord.mk 101 100 } := by
    ext1
    · rfl
    · rw [recalc_center_center]
      show Coord.mk ((pyInt ((100 : ℚ) + (2 * 1 + 1) / 2 * cosD 0) : ℤ))
                    ((pyInt ((100 : ℚ) + (2 * 1 + 1) / 2 * sinD 0) : ℤ)) = Coord.mk 101 100
      rw [hc, hs]
      rw [show (100 : ℚ) + (2 * 1 + 1) / 2 * 1 = 203 / 2 by norm_num]
      rw [show (100 : ℚ) + (2 * 1 + 1) / 2 * 0 = 100 by norm_num]
      rw [Coord.mk.injEq]
      constructor
      · show ((pyInt ((203 : ℚ) / 2) : ℤ) : ℚ) = 101
        rw [show pyInt ((203 : ℚ) / 2) = ⌊(203 : ℚ) / 2⌋ from if_pos (by norm_num), hf1]
        norm_num
      · show ((pyInt ((100 : ℚ)) : ℤ) : ℚ) = 100
        rw [show pyInt ((100 : ℚ)) = ⌊(100 : ℚ)⌋ from if_pos (by norm_num)]
        norm_num
    · rfl
    · rfl
    · rfl
    · rfl
    · rfl
  have hB1 : rotorB.add_angle_velocity { rotorA with center := Coord.mk 101 100 } =
      { rotorB with angle_velocity := (10 : ℚ) } := by
    ext1 <;> try rfl
    show (10 : ℚ) + 0 = 10
    norm_num
  have hchain : buildChain cosD sinD false rotorA [rotorB] (Coord.mk 100 100) =
      [{ rotorA with center := Coord.mk 101 100 },
       { rotorB with angle_velocity := (10 : ℚ) }] := by
    show rotorA.recalc_center cosD sinD
        ((Circle.init false 0 (Radius.mk 1 1) 1).set_center (Coord.mk 100 100)) ::
      wireAll (rotorA.recalc_center cosD sinD
        ((Circle.init false 0 (Radius.mk 1 1) 1).set_center (Coord.mk 100 100))) [rotorB] = _
    rw [hA]
    show [{ rotorA with center := Coord.mk 101 100 },
          rotorB.add_angle_velocity { rotorA with center := Coord.mk 101 100 }] = _
    rw [hB1]
  have hB2 : ({ rotorB with angle_velocity := (10 : ℚ) }).recalc_center cosD sinD
      { rotorA with center := Coord.mk 101 100 } =
      { rotorB with angle_velocity := (10 : ℚ), center := Coord.mk 112 100 } := by
    ext1
    · rfl
    · rw [recalc_center_center]
      show Coord.mk ((pyInt ((101 : ℚ) + (2 * 10 + 2) / 2 * cosD 0) : ℤ))
                    ((pyInt ((100 : ℚ) + (2 * 10 + 2) / 2 * sinD 0) : ℤ)) = Coord.mk 112 100
      rw [hc, hs]
      rw [show (101 : ℚ) + (2 * 10 + 2) / 2 * 1 = 112 by norm_num]
      rw [show (100 : ℚ) + (2 * 10 + 2) / 2 * 0 = 100 by norm_num]
      rw [Coord.mk.injEq]
      constructor
      · show ((pyInt ((112 : ℚ)) : ℤ) : ℚ) = 112
        rw [show pyInt ((112 : ℚ)) = ⌊(112 : ℚ)⌋ from if_pos (by norm_num)]
        norm_num
      · show ((pyInt ((100 : ℚ)) : ℤ) : ℚ) = 100
        rw [show pyInt ((100 : ℚ)) = ⌊(100 : ℚ)⌋ from if_pos (by norm_num)]
        norm_num
    · rfl
    · rfl
    · rfl
    · rfl
    · rfl
  have hB3 : ({ rotorB with
        angle_velocity := (10 : ℚ)
        center := Coord.mk 112 100 }).update_angle =
      { rotorB with
        angle_velocity := (10 : ℚ)
        center := Coord.mk 112 100
        angle := (10 : ℚ) } := by
    ext1 <;> try rfl
    rw [update_angle_angle]
    show pymod ((if 0 ≤ (0 : ℚ) then (1 : ℚ) else -1) * ((0 : ℚ) + 10)) 360 = 10
    rw [if_pos (le_refl (0 : ℚ))]
    rw [show (1 : ℚ) * ((0 : ℚ) + 10) = 10 by norm_num]
    exact pymod_eq_self 10 360 (by norm_num) (by norm_num)
  have htick : tick cosD sinD (buildChain cosD sinD false rotorA [rotorB] (Coord.mk 100 100)) =
      [({ rotorA with center := Coord.mk 101 100 }).update_angle,
       { rotorB with
         angle_velocity := (10 : ℚ)
         center := Coord.mk 112 100
         angle := (10 : ℚ) }] := by
    rw [hchain]
    simp only [tick, recalcPass, recalcAll, List.map_cons, List.map_nil]
    rw [hB2, hB3]
  refine ⟨rfl, ?_, ?_, ?_⟩
  · rw [hchain]
    rfl
  · rw [htick]
    rfl
  · rw [htick]
    rfl

/-- C7 witness: the scenario under the concrete exact-at-zero trig
interpretation. -/
theorem two_rotor_scenario_witness :
    initChain cOne sZero false [rotorA, rotorB] (Coord.mk 100 100) =
      some (buildChain cOne sZero false rotorA [rotorB] (Coord.mk 100 100))
  ∧ ((buildChain cOne sZero false rotorA [rotorB] (Coord.mk 100 100)).getD 0 dCircle).center =
      Coord.mk 101 100
  ∧ ((tick cOne sZero (buildChain cOne sZero false rotorA [rotorB] (Coord.mk 100 100))).getD 1
        dCircle).angle = 10
  ∧ ((tick cOne sZero (buildChain cOne sZero false rotorA [rotorB] (Coord.mk 100 100))).getD 1
        dCircle).center = Coord.mk 112 100 :=
  two_rotor_scenario cOne sZero dCircle rfl rfl

end DrawByCircles
